import Mathlib

/-!
Verification of the 2048 game engine in `src/main.py`.

The board is `self.board`, a 4×4 list of lists indexed as `board[x][y]`, each
cell holding either `None` or a `Tile` widget carrying a number.  Here a cell
holds `Option Nat` (the tile's number); widget identity, positions, colors and
animations are presentation-layer concerns with no effect on the grid model.
`remove_widget`, `add_widget`, `print` and the `Animation` object are therefore
not modelled, except for the facts that do matter to the engine: the first
animation of a `move` call binds `new_tile` as its completion callback (a spawn
is scheduled) and sets `self.moving = True`; `remove_widget(None)` is a no-op
(Kivy's `remove_widget` returns early when the argument is not among the
children), so the self-merge path of `move(0, 0)` does not fail at that call;
and `tile.update_colors()` after a merge raises an uncaught `KeyError` when the
doubled number is not a key of `tile_colors` (which holds `2 .. 2048` only),
aborting the rest of the move loop — modelled by the `crashed` flag of
`MoveOut`.
-/

namespace Game2048

/-- Grid of `board[x][y]` cells: outer index `x`, inner index `y`, each entry
the number of the tile occupying the cell, or `none` for an empty cell. -/
abbrev Grid := List (List (Option Nat))

/-- Read `board[x][y]`.  All reads performed by the engine are guarded by
`valid_cell`, so the `Int.toNat` clamping and the `getD` defaults are never
exercised on out-of-range coordinates along any engine path. -/
def getCell (g : Grid) (x y : Int) : Option Nat :=
  (g.getD x.toNat []).getD y.toNat none

/-- Write `board[x][y] = v`. -/
def setCell (g : Grid) (x y : Int) (v : Option Nat) : Grid :=
  g.set x.toNat ((g.getD x.toNat []).set y.toNat v)

/-- Generator `all_cells(flip_x, flip_y)` of `main.py`: `x` outer, `y` inner,
each running over `range(4)`, reversed when the corresponding flip is set. -/
def all_cells (fx fy : Bool) : List (Int × Int) :=
  ((if fx then [3, 2, 1, 0] else [0, 1, 2, 3] : List Int)).flatMap fun x =>
    ((if fy then [3, 2, 1, 0] else [0, 1, 2, 3] : List Int)).map fun y => (x, y)

/-- Method `valid_cell`: `0 <= x <= 3 and 0 <= y <= 3`. -/
def valid_cell (x y : Int) : Bool :=
  decide (0 ≤ x ∧ x ≤ 3 ∧ 0 ≤ y ∧ y ≤ 3)

/-- Method `can_move`: the cell is valid and empty. -/
def can_move (g : Grid) (x y : Int) : Bool :=
  valid_cell x y && (getCell g x y).isNone

/-- Method `can_merge`: the cell is valid, occupied (a `Tile` object is always
truthy), and the occupant's number equals `number`. -/
def can_merge (g : Grid) (x y : Int) (number : Nat) : Bool :=
  valid_cell x y &&
    (match getCell g x y with
     | none => false
     | some n => decide (n = number))

/-- Loop body of `is_deadlocked` with Python's early `return False`:
an empty cell or a forward-mergeable pair stops the scan with `False`. -/
def deadAux (g : Grid) : List (Int × Int) → Bool
  | [] => true
  | c :: rest =>
    match getCell g c.1 c.2 with
    | none => false
    | some number =>
      if can_merge g (c.1 + 1) c.2 number || can_merge g c.1 (c.2 + 1) number then false
      else deadAux g rest

/-- Method `is_deadlocked`. -/
def is_deadlocked (g : Grid) : Bool :=
  deadAux g (all_cells false false)

/-- List comprehension of `new_tile`: all cells of `all_cells()` whose board
entry is `None`. -/
def empty_cells (g : Grid) : List (Int × Int) :=
  (all_cells false false).filter fun c => (getCell g c.1 c.2).isNone

/-- Exception raised by `random.choice` on an empty sequence (an `IndexError`
in CPython); `new_tile` lets it propagate to the caller. -/
inductive ChoiceError
  | indexError
deriving DecidableEq, Repr

/-- Method `new_tile`.  `random.choice(empty_cells)` picks the element at a
random index; the random draw is modelled by the parameter `k`, reduced modulo
the list length so that every possible choice is covered as `k` ranges over
`Nat`.  On an empty list `random.choice` raises `IndexError` before any state
is touched.  The returned `Bool` is the value of `self.moving` after the call
(the method ends with `self.moving = False`); the game-over `print` has no
state effect and is not modelled. -/
def new_tile (g : Grid) (k : Nat) : Except ChoiceError (Grid × Bool) :=
  match empty_cells g with
  | [] => Except.error ChoiceError.indexError
  | c :: rest =>
    let cell := (c :: rest).getD (k % (c :: rest).length) (0, 0)
    Except.ok (setCell g cell.1 cell.2 (some 2), false)

/-- Board of `reset` before the two spawns: a 4×4 grid of `None`. -/
def emptyGrid : Grid :=
  [[none, none, none, none], [none, none, none, none],
   [none, none, none, none], [none, none, none, none]]

/-- Method `reset`: fresh empty board, then two `new_tile` calls with random
draws `k1` and `k2`.  The error branches are unreachable (the empty board has
16 empty cells, and after one spawn 15 remain). -/
def reset (k1 k2 : Nat) : Grid :=
  match new_tile emptyGrid k1 with
  | Except.ok (g1, _) =>
    match new_tile g1 k2 with
    | Except.ok (g2, _) => g2
    | Except.error _ => g1
  | Except.error _ => emptyGrid

/-- Keys of the `tile_colors` dictionary: `colors` has 11 palette entries and
`tile_colors = {2**i: color for i, color in enumerate(colors, start=1)}`, so
the keys are `2^1 .. 2^11`, that is `2 .. 2048`.  `Tile.update_colors` looks
up `tile_colors[self.number]` and raises `KeyError` when the number is not
among these keys. -/
def tileColorKeys : List Nat :=
  [2, 4, 8, 16, 32, 64, 128, 256, 512, 1024, 2048]

/-- State threaded through one `move` call: the grid, the `self.moving` flag,
whether a spawn has been scheduled this call (`anim.on_complete = new_tile`),
the list of merge events, each recording the destination cell of the merge and
the doubled value written there (`tile.number *= 2`), and whether the call has
aborted with an uncaught `KeyError` from `tile.update_colors()` (a merge wrote
a number outside `tile_colors`; the exception propagates out of `move`, so the
remaining loop iterations never run). -/
structure MoveOut where
  grid : Grid
  moving : Bool
  spawned : Bool
  merges : List ((Int × Int) × Nat)
  crashed : Bool
deriving DecidableEq, Repr

/-- Animation block at the end of the loop body: the first moved tile of the
call binds `new_tile` as completion callback and sets `self.moving = True`;
later moved tiles only start their own animation. -/
def sched (s : MoveOut) : MoveOut :=
  if s.moving then s else ⟨s.grid, true, true, s.merges, s.crashed⟩

/-- While loop of `move`: repeatedly transfer the tile one step while the next
cell in direction `(dx, dy)` is valid and empty, returning the final grid and
coordinates.  The fuel bounds the iteration count; `4` steps are never reached
on the 4-wide board (for a direction with a nonzero component at most 3 steps
fit inside the valid range, and for `(0, 0)` the guard fails at once because
the tile occupies its own cell), so the fuel never cuts the loop short. -/
def slide : Nat → Grid → Nat → Int → Int → Int → Int → Grid × Int × Int
  | 0, g, _, x, y, _, _ => (g, x, y)
  | fuel + 1, g, v, x, y, dx, dy =>
    if can_move g (x + dx) (y + dy) then
      slide fuel (setCell (setCell g x y none) (x + dx) (y + dy) (some v)) v
        (x + dx) (y + dy) dx dy
    else (g, x, y)

/-- Body of the `for x, y in all_cells(dir_x > 0, dir_y > 0)` loop of `move`
for one cell `c`: once an exception has aborted the call, nothing further runs;
otherwise skip empty cells, slide the tile, merge when the next cell holds an
equal number (clear the source, double at the destination; the destroyed
widget's removal has no grid effect), then `tile.update_colors()`: when the
doubled number is not a `tile_colors` key this raises `KeyError` after the
board writes and the doubling, aborting the call with the merge already
applied and the animation block never reached; otherwise skip the animation
block when the tile ended where it started. -/
def moveStep (dx dy : Int) (s : MoveOut) (c : Int × Int) : MoveOut :=
  if s.crashed then s
  else
    match getCell s.grid c.1 c.2 with
    | none => s
    | some v =>
      let r := slide 4 s.grid v c.1 c.2 dx dy
      let g1 := r.1
      let x1 := r.2.1
      let y1 := r.2.2
      if can_merge g1 (x1 + dx) (y1 + dy) v then
        let g3 := setCell (setCell g1 x1 y1 none) (x1 + dx) (y1 + dy) (some (v * 2))
        if v * 2 ∈ tileColorKeys then
          let s1 : MoveOut :=
            ⟨g3, s.moving, s.spawned, s.merges ++ [((x1 + dx, y1 + dy), v * 2)], s.crashed⟩
          if x1 + dx = c.1 ∧ y1 + dy = c.2 then s1 else sched s1
        else
          ⟨g3, s.moving, s.spawned, s.merges ++ [((x1 + dx, y1 + dy), v * 2)], true⟩
      else
        if x1 = c.1 ∧ y1 = c.2 then ⟨g1, s.moving, s.spawned, s.merges, s.crashed⟩
        else sched ⟨g1, s.moving, s.spawned, s.merges, s.crashed⟩

/-- Method `move(dir_x, dir_y)` acting on the board `g` with in-flight flag
`moving`: an immediate return when a move is in flight, otherwise the cell loop
over `all_cells(dir_x > 0, dir_y > 0)`. -/
def move (g : Grid) (moving : Bool) (dx dy : Int) : MoveOut :=
  if moving then ⟨g, moving, false, [], false⟩
  else (all_cells (decide (0 < dx)) (decide (0 < dy))).foldl (moveStep dx dy)
    ⟨g, false, false, [], false⟩

/-- Well-formed grid: 4 columns of 4 cells, as built by `reset`. -/
abbrev WF (g : Grid) : Prop :=
  g.length = 4 ∧ ∀ r ∈ g, r.length = 4

/-- Setting an index past the end of a list leaves it unchanged. -/
theorem set_past_end {α : Type} : ∀ (l : List α) (i : Nat) (a : α), l.length ≤ i → l.set i a = l
  | [], _, _, _ => rfl
  | x :: xs, 0, a, h => absurd h (by simp)
  | x :: xs, i + 1, a, h => by
      rw [List.set]
      rw [set_past_end xs i a (by simpa using h)]

/-- Reading past the end of a list gives the default. -/
theorem getD_past_end {α : Type} : ∀ (l : List α) (i : Nat) (d : α), l.length ≤ i → l.getD i d = d
  | [], _, _, _ => rfl
  | x :: xs, 0, d, h => absurd h (by simp)
  | x :: xs, i + 1, d, h => getD_past_end xs i d (by simpa using h)

/-- Reading at an index other than the one just set is unchanged. -/
theorem getD_set_ne {α : Type} :
    ∀ (l : List α) (i j : Nat) (a d : α), i ≠ j → (l.set i a).getD j d = l.getD j d
  | [], _, _, _, _, _ => rfl
  | x :: xs, 0, 0, a, d, h => absurd rfl h
  | x :: xs, 0, j + 1, a, d, _ => rfl
  | x :: xs, i + 1, 0, a, d, _ => rfl
  | x :: xs, i + 1, j + 1, a, d, h => getD_set_ne xs i j a d (by omega)

/-- Reading back an in-range index that was just set gives the new value. -/
theorem getD_set_self {α : Type} :
    ∀ (l : List α) (i : Nat) (a d : α), i < l.length → (l.set i a).getD i d = a
  | [], i, _, _, h => absurd h (by simp)
  | x :: xs, 0, a, d, _ => rfl
  | x :: xs, i + 1, a, d, h => getD_set_self xs i a d (by simpa using h)

/-- Reading an in-range index gives a member of the list. -/
theorem getD_mem {α : Type} :
    ∀ (l : List α) (i : Nat) (d : α), i < l.length → l.getD i d ∈ l
  | x :: xs, 0, d, _ => List.mem_cons_self x xs
  | x :: xs, i + 1, d, h => List.mem_cons_of_mem x (getD_mem xs i d (by simpa using h))

/-- Cell writes do not disturb reads at a cell with different indices. -/
theorem getCell_setCell_ne (g : Grid) (x y a b : Int) (v : Option Nat)
    (h : x.toNat ≠ a.toNat ∨ y.toNat ≠ b.toNat) :
    getCell (setCell g x y v) a b = getCell g a b := by
  unfold getCell setCell
  rcases h with h | h
  · rw [getD_set_ne _ _ _ _ _ h]
  · by_cases hx : x.toNat = a.toNat
    · rw [← hx]
      by_cases hlen : x.toNat < g.length
      · rw [getD_set_self _ _ _ _ hlen, getD_set_ne _ _ _ _ _ h]
      · rw [set_past_end _ _ _ (by omega)]
    · rw [getD_set_ne _ _ _ _ _ hx]

/-- Cell writes at a valid cell of a well-formed grid are read back. -/
theorem getCell_setCell_self (g : Grid) (x y : Int) (v : Option Nat)
    (hw : WF g) (hv : valid_cell x y = true) :
    getCell (setCell g x y v) x y = v := by
  obtain ⟨h4, hrows⟩ := hw
  simp only [valid_cell, decide_eq_true_eq] at hv
  unfold getCell setCell
  have hx : x.toNat < g.length := by omega
  rw [getD_set_self _ _ _ _ hx]
  have hrow : (g.getD x.toNat []).length = 4 := hrows _ (getD_mem _ _ _ hx)
  rw [getD_set_self _ _ _ _ (by omega)]

/-- Cell writes preserve well-formedness. -/
theorem WF_setCell (g : Grid) (x y : Int) (v : Option Nat) (hw : WF g) :
    WF (setCell g x y v) := by
  obtain ⟨h4, hrows⟩ := hw
  by_cases hx : x.toNat < g.length
  · constructor
    · simpa [setCell] using h4
    · intro r hr
      rcases List.mem_or_eq_of_mem_set hr with hr | rfl
      · exact hrows r hr
      · rw [List.length_set]
        exact hrows _ (getD_mem _ _ _ hx)
  · unfold setCell
    rw [set_past_end _ _ _ (by omega)]
    exact ⟨h4, hrows⟩

/-- Every cell produced by `all_cells` is valid. -/
theorem valid_of_mem_all_cells {fx fy : Bool} {c : Int × Int}
    (h : c ∈ all_cells fx fy) : valid_cell c.1 c.2 = true := by
  cases fx <;> cases fy <;> (fin_cases h <;> decide)

/-- Every valid cell is produced by `all_cells`, for either flip setting. -/
theorem mem_all_cells_of_valid {fx fy : Bool} {x y : Int}
    (h : valid_cell x y = true) : (x, y) ∈ all_cells fx fy := by
  simp only [valid_cell, decide_eq_true_eq] at h
  have hx : x = 0 ∨ x = 1 ∨ x = 2 ∨ x = 3 := by omega
  have hy : y = 0 ∨ y = 1 ∨ y = 2 ∨ y = 3 := by omega
  cases fx <;> cases fy <;> rcases hx with rfl | rfl | rfl | rfl <;>
    rcases hy with rfl | rfl | rfl | rfl <;> decide

/-- Scan orders of `all_cells` contain no duplicate cells. -/
theorem all_cells_nodup : ∀ fx fy : Bool, (all_cells fx fy).Nodup := by decide

/-- Distinct valid cells differ in at least one `toNat` index. -/
theorem toNat_ne_of_ne {x y a b : Int} (hv : valid_cell x y = true)
    (hv' : valid_cell a b = true) (h : (x, y) ≠ (a, b)) :
    x.toNat ≠ a.toNat ∨ y.toNat ≠ b.toNat := by
  simp only [valid_cell, decide_eq_true_eq] at hv hv'
  simp only [ne_eq, Prod.mk.injEq, not_and] at h
  omega

/-- Empty cells of the initial board are all 16 cells. -/
theorem emptyGrid_none : ∀ d ∈ all_cells false false, getCell emptyGrid d.1 d.2 = none := by
  decide

/-- Membership in `empty_cells` unfolded. -/
theorem mem_empty_cells {g : Grid} {c : Int × Int} :
    c ∈ empty_cells g ↔ c ∈ all_cells false false ∧ getCell g c.1 c.2 = none := by
  simp [empty_cells, List.mem_filter, Option.isNone_iff_eq_none]

/-- Successful spawn: with at least one empty cell, `new_tile` places a tile of
value `2` at one of the empty cells and clears the in-flight flag. -/
theorem new_tile_ok (g : Grid) (k : Nat) (h : empty_cells g ≠ []) :
    ∃ c, c ∈ empty_cells g ∧
      new_tile g k = Except.ok (setCell g c.1 c.2 (some 2), false) := by
  rcases hc : empty_cells g with _ | ⟨c0, rest⟩
  · exact absurd hc h
  · refine ⟨(c0 :: rest).getD (k % (c0 :: rest).length) (0, 0), ?_, ?_⟩
    · exact getD_mem _ _ _ (Nat.mod_lt _ (by simp))
    · unfold new_tile
      rw [hc]

/-- Fully occupied board with no mergeable pair, used as a concrete input. -/
def fullGrid : Grid :=
  [[some 2, some 4, some 2, some 4], [some 4, some 2, some 4, some 2],
   [some 2, some 4, some 2, some 4], [some 4, some 2, some 4, some 2]]

/-- C5: if the in-flight flag `moving` is set when `move` is called, the call
is a no-op for every board and direction: the board mapping is returned
unchanged, the flag stays set, no spawn is scheduled and no merge happens. -/
theorem C5_move_inflight_noop (g : Grid) (dx dy : Int) :
    move g true dx dy = ⟨g, true, false, [], false⟩ := rfl

/-- C6: a row `[2, 2, 2, 2]` on an otherwise empty board, moved toward index
`0`, becomes `[4, 4, None, None]`: the four equal tiles merge as two pairs at
cells `(0, 0)` and `(1, 0)`, not chained into a single `8`. -/
theorem C6_four_twos_merge_pairwise :
    move [[some 2, none, none, none], [some 2, none, none, none],
          [some 2, none, none, none], [some 2, none, none, none]] false (-1) 0 =
      ⟨[[some 4, none, none, none], [some 4, none, none, none],
        [none, none, none, none], [none, none, none, none]], true, true,
       [((0, 0), 4), ((1, 0), 4)], false⟩ := by
  decide

/-- Formalization of the claim that a tile merges at most once per `move`
call.  Each executed merge is recorded with its destination cell; the doubled
tile stays at that destination for the rest of the call, so a tile doubled by
a merge is merged again within the same call exactly when a later merge event
has the same destination cell.  The claim states the destinations are
pairwise distinct. -/
def merges_at_most_once (g : Grid) (dx dy : Int) : Prop :=
  ((move g false dx dy).merges.map Prod.fst).Nodup

/-- C1 counterexample: on the row `[2, 2, 4]` moved toward index `0`, the two
leading tiles merge to a `4` at cell `(0, 0)`, and the trailing `4` then
slides and merges into that just-doubled tile, leaving a single `8`: the same
destination `(0, 0)` receives two merges in one call, so a tile doubled by a
merge in this call is merged again in the same call. -/
theorem C1_counterexample :
    ¬ merges_at_most_once
        [[some 2, none, none, none], [some 2, none, none, none],
         [some 4, none, none, none], [none, none, none, none]] (-1) 0 ∧
    (move [[some 2, none, none, none], [some 2, none, none, none],
           [some 4, none, none, none], [none, none, none, none]] false (-1) 0).grid =
      [[some 8, none, none, none], [none, none, none, none],
       [none, none, none, none], [none, none, none, none]] ∧
    (move [[some 2, none, none, none], [some 2, none, none, none],
           [some 4, none, none, none], [none, none, none, none]] false (-1) 0).merges =
      [((0, 0), 4), ((0, 0), 8)] := by
  refine ⟨?_, by decide, by decide⟩
  unfold merges_at_most_once
  decide

/-- C3: invoking `new_tile` on a board with zero empty cells fails loudly:
`random.choice` raises on the empty candidate list, the operation aborts with
the error surfaced to the caller, and no board state is produced. -/
theorem C3_spawn_on_full_board_fails (g : Grid) (k : Nat) (h : empty_cells g = []) :
    new_tile g k = Except.error ChoiceError.indexError := by
  unfold new_tile
  rw [h]

/-- Witness for C3 at a concrete full board. -/
theorem C3_witness :
    empty_cells fullGrid = [] ∧
      new_tile fullGrid 0 = Except.error ChoiceError.indexError :=
  ⟨by decide, C3_spawn_on_full_board_fails fullGrid 0 (by decide)⟩

/-- C7: for every outcome of the two random draws, `reset` produces a board
with exactly two occupied cells, at two distinct positions, each holding a
tile of value `2`, and every other cell empty. -/
theorem C7_reset_places_two_twos (k1 k2 : Nat) :
    ∃ c1 c2 : Int × Int, c1 ≠ c2 ∧
      c1 ∈ all_cells false false ∧ c2 ∈ all_cells false false ∧
      getCell (reset k1 k2) c1.1 c1.2 = some 2 ∧
      getCell (reset k1 k2) c2.1 c2.2 = some 2 ∧
      ∀ c ∈ all_cells false false, c ≠ c1 → c ≠ c2 →
        getCell (reset k1 k2) c.1 c.2 = none := by
  obtain ⟨⟨a1, b1⟩, hm1, he1⟩ := new_tile_ok emptyGrid k1 (by decide)
  obtain ⟨hc1L, _⟩ := mem_empty_cells.mp hm1
  have hv1 : valid_cell a1 b1 = true := valid_of_mem_all_cells hc1L
  have hWFe : WF emptyGrid := ⟨by decide, by decide⟩
  have hWF1 : WF (setCell emptyGrid a1 b1 (some 2)) := WF_setCell _ _ _ _ hWFe
  have hread1 : getCell (setCell emptyGrid a1 b1 (some 2)) a1 b1 = some 2 :=
    getCell_setCell_self _ _ _ _ hWFe hv1
  have key : ∀ d : Int × Int, d ∈ all_cells false false → d ≠ (a1, b1) →
      d ∈ empty_cells (setCell emptyGrid a1 b1 (some 2)) := by
    rintro ⟨u, w⟩ hdL hdne
    refine mem_empty_cells.mpr ⟨hdL, ?_⟩
    rw [getCell_setCell_ne _ _ _ _ _ _
      (toNat_ne_of_ne hv1 (valid_of_mem_all_cells hdL) (Ne.symm hdne))]
    exact emptyGrid_none _ hdL
  have hne2 : empty_cells (setCell emptyGrid a1 b1 (some 2)) ≠ [] := by
    intro hnil
    by_cases h00 : ((0 : Int), (0 : Int)) = ((a1 : Int), (b1 : Int))
    · have h11 := key (1, 1) (by decide) (by rw [← h00]; decide)
      rw [hnil] at h11
      exact absurd h11 (List.not_mem_nil _)
    · have h00m := key (0, 0) (by decide) h00
      rw [hnil] at h00m
      exact absurd h00m (List.not_mem_nil _)
  obtain ⟨⟨a2, b2⟩, hm2, he2⟩ := new_tile_ok (setCell emptyGrid a1 b1 (some 2)) k2 hne2
  obtain ⟨hc2L, hc2none⟩ := mem_empty_cells.mp hm2
  have hv2 : valid_cell a2 b2 = true := valid_of_mem_all_cells hc2L
  have hne12 : ((a2 : Int), (b2 : Int)) ≠ ((a1 : Int), (b1 : Int)) := by
    intro hEq
    have h1 : a2 = a1 := congrArg Prod.fst hEq
    have h2 : b2 = b1 := congrArg Prod.snd hEq
    rw [h1, h2, hread1] at hc2none
    exact Option.noConfusion hc2none
  simp only [reset, he1, he2]
  refine ⟨(a1, b1), (a2, b2), Ne.symm hne12, hc1L, hc2L, ?_, ?_, ?_⟩
  · rw [getCell_setCell_ne _ _ _ _ _ _ (toNat_ne_of_ne hv2 hv1 hne12)]
    exact hread1
  · exact getCell_setCell_self _ _ _ _ hWF1 hv2
  · rintro ⟨u, w⟩ hcL h1 h2
    have hvU : valid_cell u w = true := valid_of_mem_all_cells hcL
    rw [getCell_setCell_ne _ _ _ _ _ _ (toNat_ne_of_ne hv2 hvU (Ne.symm h2))]
    rw [getCell_setCell_ne _ _ _ _ _ _ (toNat_ne_of_ne hv1 hvU (Ne.symm h1))]
    exact emptyGrid_none _ hcL

/-- Unit directions produced by the key bindings (`key_vectors`). -/
abbrev UnitDir (dx dy : Int) : Prop :=
  (dx, dy) = (0, 1) ∨ (dx, dy) = (1, 0) ∨ (dx, dy) = (0, -1) ∨ (dx, dy) = (-1, 0)

/-- Some tile of `g` can slide into an empty neighbour or merge with an equal
neighbour one step along `(dx, dy)`: the static condition under which a `move`
call changes anything. -/
def movePossible (g : Grid) (dx dy : Int) : Bool :=
  (all_cells false false).any fun c =>
    match getCell g c.1 c.2 with
    | none => false
    | some v => can_move g (c.1 + dx) (c.2 + dy) || can_merge g (c.1 + dx) (c.2 + dy) v

/-- Loop body after an abort or on an empty cell: skipped. -/
theorem moveStep_empty (dx dy : Int) (s : MoveOut) (c : Int × Int)
    (hv : getCell s.grid c.1 c.2 = none) : moveStep dx dy s c = s := by
  unfold moveStep
  split
  · rfl
  · rw [hv]

/-- Loop body on a cell whose tile can neither slide nor merge: no change. -/
theorem moveStep_no_move (dx dy : Int) (s : MoveOut) (c : Int × Int)
    (h : ∀ v, getCell s.grid c.1 c.2 = some v →
      can_move s.grid (c.1 + dx) (c.2 + dy) = false ∧
        can_merge s.grid (c.1 + dx) (c.2 + dy) v = false) :
    moveStep dx dy s c = s := by
  unfold moveStep
  split
  · rfl
  · rcases hv : getCell s.grid c.1 c.2 with _ | v
    · rfl
    · obtain ⟨hcm, hmg⟩ := h v hv
      have hslide : slide 4 s.grid v c.1 c.2 dx dy = (s.grid, c.1, c.2) := by
        show slide (3 + 1) s.grid v c.1 c.2 dx dy = (s.grid, c.1, c.2)
        simp [slide, hcm]
      simp [hslide, hmg]

/-- Cell loop over a blocked board: the threaded state never changes. -/
theorem foldl_moveStep_id (dx dy : Int) (g : Grid)
    (hg : ∀ c ∈ all_cells false false, ∀ v, getCell g c.1 c.2 = some v →
      can_move g (c.1 + dx) (c.2 + dy) = false ∧
        can_merge g (c.1 + dx) (c.2 + dy) v = false) :
    ∀ l : List (Int × Int), (∀ c ∈ l, c ∈ all_cells false false) →
      l.foldl (moveStep dx dy) ⟨g, false, false, [], false⟩ = ⟨g, false, false, [], false⟩ := by
  intro l
  induction l with
  | nil => intro _; rfl
  | cons c rest ih =>
    intro hmem
    rw [List.foldl_cons,
      moveStep_no_move dx dy _ c (fun v hv => hg c (hmem c (List.mem_cons_self ..)) v hv)]
    exact ih fun d hd => hmem d (List.mem_cons_of_mem c hd)

/-- C4: when no tile can slide or merge along the requested unit direction,
`move` is a complete no-op: the board mapping and every tile value are exactly
as they were, no spawn is scheduled, the in-flight flag stays unset, and no
merge (hence no exception) occurs. -/
theorem C4_blocked_move_is_noop (g : Grid) (dx dy : Int)
    (hu : UnitDir dx dy) (h : movePossible g dx dy = false) :
    move g false dx dy = ⟨g, false, false, [], false⟩ := by
  unfold movePossible at h
  rw [List.any_eq_false] at h
  have hg : ∀ c ∈ all_cells false false, ∀ v, getCell g c.1 c.2 = some v →
      can_move g (c.1 + dx) (c.2 + dy) = false ∧
        can_merge g (c.1 + dx) (c.2 + dy) v = false := by
    intro c hc v hv
    have hc' := h c hc
    rw [hv] at hc'
    simp only [Bool.or_eq_true, not_or, Bool.not_eq_true] at hc'
    exact hc'
  unfold move
  simp only [Bool.false_eq_true, if_false]
  exact foldl_moveStep_id dx dy g hg _
    fun c hc => mem_all_cells_of_valid (valid_of_mem_all_cells hc)

/-- Already fully packed row with strictly growing values: no move possible. -/
def packedRow : Grid :=
  [[some 2, none, none, none], [some 4, none, none, none],
   [some 8, none, none, none], [some 16, none, none, none]]

/-- Witness for C4: the packed row `[2, 4, 8, 16]` moved toward index `0`. -/
theorem C4_witness :
    UnitDir (-1) 0 ∧ movePossible packedRow (-1) 0 = false ∧
      move packedRow false (-1) 0 = ⟨packedRow, false, false, [], false⟩ :=
  ⟨Or.inr (Or.inr (Or.inr rfl)), by decide,
    C4_blocked_move_is_noop packedRow (-1) 0 (Or.inr (Or.inr (Or.inr rfl))) (by decide)⟩

/-- Loop body with direction `(0, 0)` on an occupied cell whose doubled value
stays inside the color table: the tile cannot slide (its own cell is occupied
by itself), but `can_merge` probes the tile's own cell and succeeds against
the tile's own value, so the tile merges with itself: its value doubles in
place, a merge event is recorded, `update_colors` succeeds, and the animation
block is skipped because the tile never left its start cell. -/
theorem moveStep_self_merge (s : MoveOut) (c : Int × Int) (v : Nat)
    (hWF : WF s.grid) (hvalid : valid_cell c.1 c.2 = true)
    (hv : getCell s.grid c.1 c.2 = some v)
    (hcr : s.crashed = false) (hkey : v * 2 ∈ tileColorKeys) :
    moveStep 0 0 s c =
      ⟨setCell (setCell s.grid c.1 c.2 none) c.1 c.2 (some (v * 2)),
        s.moving, s.spawned, s.merges ++ [((c.1, c.2), v * 2)], s.crashed⟩ := by
  unfold moveStep
  have hslide : slide 4 s.grid v c.1 c.2 0 0 = (s.grid, c.1, c.2) := by
    show slide (3 + 1) s.grid v c.1 c.2 0 0 = (s.grid, c.1, c.2)
    simp [slide, can_move, hv]
  have hmerge : can_merge s.grid c.1 c.2 v = true := by
    simp [can_merge, hv, hvalid]
  simp [hcr, hv, hslide, hmerge, hkey]

/-- Cell loop with direction `(0, 0)`: cells already visited hold their tile
with a doubled value, cells not yet visited are untouched, and the flags never
change because no tile ever leaves its start cell. -/
theorem foldl_self_merge (g : Grid)
    (hkeys : ∀ c ∈ all_cells false false, ∀ v, getCell g c.1 c.2 = some v →
      v * 2 ∈ tileColorKeys) :
    ∀ l : List (Int × Int), l.Nodup → (∀ c ∈ l, c ∈ all_cells false false) →
      ∀ s : MoveOut, WF s.grid → s.crashed = false →
      (∀ c ∈ all_cells false false,
        getCell s.grid c.1 c.2 =
          if c ∈ l then getCell g c.1 c.2 else (getCell g c.1 c.2).map (fun v => v * 2)) →
      WF (l.foldl (moveStep 0 0) s).grid ∧
        (l.foldl (moveStep 0 0) s).moving = s.moving ∧
        (l.foldl (moveStep 0 0) s).spawned = s.spawned ∧
        (l.foldl (moveStep 0 0) s).crashed = false ∧
        ∀ c ∈ all_cells false false,
          getCell (l.foldl (moveStep 0 0) s).grid c.1 c.2 =
            (getCell g c.1 c.2).map (fun v => v * 2) := by
  intro l
  induction l with
  | nil =>
    intro _ _ s hWFs hcrs hinv
    refine ⟨hWFs, rfl, rfl, hcrs, ?_⟩
    intro c hc
    simpa using hinv c hc
  | cons c0 rest ih =>
    intro hnodup hmemL s hWFs hcrs hinv
    have hc0L : c0 ∈ all_cells false false := hmemL c0 (List.mem_cons_self ..)
    have hc0val : valid_cell c0.1 c0.2 = true := valid_of_mem_all_cells hc0L
    have hc0ni : c0 ∉ rest := (List.nodup_cons.mp hnodup).1
    have hc0_inv : getCell s.grid c0.1 c0.2 = getCell g c0.1 c0.2 := by
      rw [hinv c0 hc0L, if_pos (List.mem_cons_self ..)]
    rcases hv : getCell g c0.1 c0.2 with _ | v
    · have hstep : moveStep 0 0 s c0 = s :=
        moveStep_empty 0 0 s c0 (by rw [hc0_inv, hv])
      rw [List.foldl_cons, hstep]
      refine ih hnodup.of_cons (fun d hd => hmemL d (List.mem_cons_of_mem c0 hd)) s hWFs hcrs ?_
      intro c hcL
      have hthis := hinv c hcL
      by_cases hcr : c ∈ rest
      · rw [if_pos hcr]
        rw [if_pos (List.mem_cons_of_mem c0 hcr)] at hthis
        exact hthis
      · rw [if_neg hcr]
        by_cases hcc : c = c0
        · subst hcc
          rw [if_pos (List.mem_cons_self ..)] at hthis
          rw [hthis, hv]
          rfl
        · rw [if_neg (by simp [List.mem_cons, hcc, hcr])] at hthis
          exact hthis
    · have hkey : v * 2 ∈ tileColorKeys := hkeys c0 hc0L v hv
      have hstep := moveStep_self_merge s c0 v hWFs hc0val (by rw [hc0_inv]; exact hv) hcrs hkey
      rw [List.foldl_cons, hstep]
      have hWF1 : WF (setCell s.grid c0.1 c0.2 none) := WF_setCell _ _ _ _ hWFs
      have hWF2 : WF (setCell (setCell s.grid c0.1 c0.2 none) c0.1 c0.2 (some (v * 2))) :=
        WF_setCell _ _ _ _ hWF1
      have hres := ih hnodup.of_cons (fun d hd => hmemL d (List.mem_cons_of_mem c0 hd))
        ⟨setCell (setCell s.grid c0.1 c0.2 none) c0.1 c0.2 (some (v * 2)),
          s.moving, s.spawned, s.merges ++ [((c0.1, c0.2), v * 2)], s.crashed⟩ hWF2 hcrs ?_
      · exact ⟨hres.1, hres.2.1, hres.2.2.1, hres.2.2.2.1, hres.2.2.2.2⟩
      · intro c hcL
        have hcval : valid_cell c.1 c.2 = true := valid_of_mem_all_cells hcL
        by_cases hcc : c = c0
        · subst hcc
          rw [if_neg hc0ni]
          show getCell (setCell (setCell s.grid c.1 c.2 none) c.1 c.2 (some (v * 2))) c.1 c.2 = _
          rw [getCell_setCell_self _ _ _ _ hWF1 hcval, hv]
          rfl
        · have hne : c0.1.toNat ≠ c.1.toNat ∨ c0.2.toNat ≠ c.2.toNat :=
            toNat_ne_of_ne hc0val hcval (Ne.symm hcc)
          show getCell (setCell (setCell s.grid c0.1 c0.2 none) c0.1 c0.2 (some (v * 2))) c.1 c.2 = _
          rw [getCell_setCell_ne _ _ _ _ _ _ hne, getCell_setCell_ne _ _ _ _ _ _ hne]
          have hthis := hinv c hcL
          by_cases hcr : c ∈ rest
          · rw [if_pos hcr]
            rw [if_pos (List.mem_cons_of_mem c0 hcr)] at hthis
            exact hthis
          · rw [if_neg hcr]
            rw [if_neg (by simp [List.mem_cons, hcc, hcr])] at hthis
            exact hthis

/-- Cell content whose doubling stays inside the color table: empty, or a
value `v` with `v * 2` among the `tile_colors` keys. -/
def doubleInTable : Option Nat → Bool
  | none => true
  | some v => decide (v * 2 ∈ tileColorKeys)

/-- Board holding a `2048` tile at cell `(0, 0)` and a `2` at the
later-traversed cell `(1, 1)`, rest empty. -/
def bigGrid : Grid :=
  [[some 2048, none, none, none], [none, some 2, none, none],
   [none, none, none, none], [none, none, none, none]]

/-- C10 counterexample: on a board holding a `2048` tile, `move(0, 0)` does
not double every tile.  The self-merge at `(0, 0)` writes `4096`, which is not
a `tile_colors` key, so `tile.update_colors()` raises `KeyError` and aborts
the loop: the later-traversed tile at `(1, 1)` keeps its value `2` instead of
doubling, and no tile value map over the whole board holds. -/
theorem C10_counterexample :
    (move bigGrid false 0 0).crashed = true ∧
    getCell (move bigGrid false 0 0).grid 0 0 = some 4096 ∧
    getCell (move bigGrid false 0 0).grid 1 1 = some 2 ∧
    ¬ (∀ c ∈ all_cells false false,
        getCell (move bigGrid false 0 0).grid c.1 c.2 =
          (getCell bigGrid c.1 c.2).map (fun v => v * 2)) := by
  refine ⟨by decide, by decide, by decide, ?_⟩
  intro hall
  have := hall (1, 1) (by decide)
  exact absurd this (by decide)

/-- C10 amended: `move(0, 0)` is not rejected.  With the in-flight flag unset
it reaches the mutation loop, where every occupied tile merges with itself.
On every board whose doubled tile values all stay inside the color table,
each cell's occupancy is unchanged, every tile's value is doubled in place,
no spawn is scheduled, the in-flight flag stays unset and no exception is
raised; a tile whose doubled value leaves the table (a `2048`) instead
aborts the call with `KeyError` part-way through the traversal. -/
theorem C10_zero_vector_self_merges (g : Grid) (hWF : WF g)
    (hkeys : ∀ c ∈ all_cells false false, doubleInTable (getCell g c.1 c.2) = true) :
    (move g false 0 0).moving = false ∧ (move g false 0 0).spawned = false ∧
      (move g false 0 0).crashed = false ∧
      (∀ c ∈ all_cells false false,
        getCell (move g false 0 0).grid c.1 c.2 = (getCell g c.1 c.2).map (fun v => v * 2)) ∧
      ∀ c ∈ all_cells false false,
        ((move g false 0 0).grid |> fun G => (getCell G c.1 c.2).isSome) =
          (getCell g c.1 c.2).isSome := by
  have hkeys' : ∀ c ∈ all_cells false false, ∀ v, getCell g c.1 c.2 = some v →
      v * 2 ∈ tileColorKeys := by
    intro c hc v hv
    have hh := hkeys c hc
    rw [hv] at hh
    exact of_decide_eq_true hh
  have hmv : move g false 0 0 =
      (all_cells false false).foldl (moveStep 0 0) ⟨g, false, false, [], false⟩ := rfl
  have hres := foldl_self_merge g hkeys' (all_cells false false) (all_cells_nodup false false)
    (fun c hc => hc) ⟨g, false, false, [], false⟩ hWF rfl ?_
  · rw [hmv]
    refine ⟨hres.2.1, hres.2.2.1, hres.2.2.2.1, hres.2.2.2.2, ?_⟩
    intro c hc
    show (getCell ((all_cells false false).foldl (moveStep 0 0)
      ⟨g, false, false, [], false⟩).grid c.1 c.2).isSome = _
    rw [hres.2.2.2.2 c hc]
    exact Option.isSome_map ..
  · intro c hc
    rw [if_pos hc]

/-- Per-cell predicate of the deadlock scan: the cell is occupied and its
tile can merge neither with the `x + 1` nor with the `y + 1` neighbour. -/
def deadCell (g : Grid) (c : Int × Int) : Bool :=
  match getCell g c.1 c.2 with
  | none => false
  | some number =>
    !(can_merge g (c.1 + 1) c.2 number || can_merge g c.1 (c.2 + 1) number)

/-- Two cells hold tiles of equal value. -/
def sameVal : Option Nat → Option Nat → Bool
  | some a, some b => decide (a = b)
  | _, _ => false

/-- Some two orthogonally adjacent cells of the board (any of the four
neighbour directions) hold tiles of equal value. -/
def hasAdjEq (g : Grid) : Bool :=
  (all_cells false false).any fun c =>
    (all_cells false false).any fun d =>
      decide ((c.1 - d.1).natAbs + (c.2 - d.2).natAbs = 1) &&
        sameVal (getCell g c.1 c.2) (getCell g d.1 d.2)

/-- Every cell of the board is occupied. -/
def full (g : Grid) : Bool :=
  (all_cells false false).all fun c => (getCell g c.1 c.2).isSome

/-- One unfolding step of the deadlock scan. -/
theorem deadAux_cons (g : Grid) (c : Int × Int) (rest : List (Int × Int)) :
    deadAux g (c :: rest) =
      match getCell g c.1 c.2 with
      | none => false
      | some number =>
        if can_merge g (c.1 + 1) c.2 number || can_merge g c.1 (c.2 + 1) number then false
        else deadAux g rest := rfl

/-- Early-return scan equals the conjunction of the per-cell predicate. -/
theorem deadAux_eq_all (g : Grid) : ∀ l : List (Int × Int), deadAux g l = l.all (deadCell g)
  | [] => rfl
  | c :: rest => by
    rw [deadAux_cons, List.all_cons, ← deadAux_eq_all g rest]
    rcases hgc : getCell g c.1 c.2 with _ | n
    · simp [deadCell, hgc]
    · by_cases h : (can_merge g (c.1 + 1) c.2 n || can_merge g c.1 (c.2 + 1) n) = true
      · simp [deadCell, hgc, h]
      · simp [deadCell, hgc, h]

/-- Successful forward merge probe from an adjacent cell exhibits an adjacent
equal pair. -/
theorem hasAdjEq_of_merge (g : Grid) (c : Int × Int)
    (hcL : c ∈ all_cells false false) (n : Nat)
    (hgc : getCell g c.1 c.2 = some n) (x y : Int)
    (hadj : (c.1 - x).natAbs + (c.2 - y).natAbs = 1)
    (hcm : can_merge g x y n = true) : hasAdjEq g = true := by
  unfold can_merge at hcm
  rw [Bool.and_eq_true] at hcm
  obtain ⟨hval, hrest⟩ := hcm
  rcases hgd : getCell g x y with _ | m
  · rw [hgd] at hrest
    simp at hrest
  · rw [hgd] at hrest
    rw [decide_eq_true_eq] at hrest
    unfold hasAdjEq
    rw [List.any_eq_true]
    refine ⟨c, hcL, ?_⟩
    rw [List.any_eq_true]
    refine ⟨(x, y), mem_all_cells_of_valid hval, ?_⟩
    simp [hadj, sameVal, hgc, hgd, hrest]

/-- C2: for a board in which all 16 cells are occupied, `is_deadlocked`
returns `true` exactly when no two orthogonally adjacent cells hold tiles of
equal value (checking only the `x + 1` and `y + 1` neighbour of every cell
covers every adjacent pair); and for a board with at least one empty cell it
returns `false`. -/
theorem C2_deadlock_characterization (g : Grid) :
    (full g = false → is_deadlocked g = false) ∧
    (full g = true → (is_deadlocked g = true ↔ hasAdjEq g = false)) := by
  constructor
  · intro hfull
    simp only [full, List.all_eq_false] at hfull
    obtain ⟨c, hcL, hc⟩ := hfull
    rw [Option.not_isSome_iff_eq_none] at hc
    rw [is_deadlocked, deadAux_eq_all, List.all_eq_false]
    exact ⟨c, hcL, by simp [deadCell, hc]⟩
  · intro hfull
    rw [full, List.all_eq_true] at hfull
    rw [is_deadlocked, deadAux_eq_all, List.all_eq_true]
    constructor
    · intro hall
      rw [Bool.eq_false_iff]
      intro htrue
      unfold hasAdjEq at htrue
      rw [List.any_eq_true] at htrue
      obtain ⟨c, hcL, hinner⟩ := htrue
      rw [List.any_eq_true] at hinner
      obtain ⟨d, hdL, hpair⟩ := hinner
      rw [Bool.and_eq_true, decide_eq_true_eq] at hpair
      obtain ⟨hadj, hsv⟩ := hpair
      rcases hgc : getCell g c.1 c.2 with _ | n
      · rw [hgc] at hsv
        simp [sameVal] at hsv
      · rcases hgd : getCell g d.1 d.2 with _ | m
        · rw [hgc, hgd] at hsv
          simp [sameVal] at hsv
        · rw [hgc, hgd] at hsv
          simp only [sameVal, decide_eq_true_eq] at hsv
          have hvc := valid_of_mem_all_cells hcL
          have hvd := valid_of_mem_all_cells hdL
          simp only [valid_cell, decide_eq_true_eq] at hvc hvd
          have hcase : (d.1 = c.1 + 1 ∧ d.2 = c.2) ∨ (c.1 = d.1 + 1 ∧ c.2 = d.2) ∨
              (d.2 = c.2 + 1 ∧ d.1 = c.1) ∨ (c.2 = d.2 + 1 ∧ c.1 = d.1) := by omega
          have hmergeTrue : ∀ e : Int × Int, e ∈ all_cells false false → ∀ k : Nat,
              getCell g e.1 e.2 = some k →
              (can_merge g (e.1 + 1) e.2 k = true ∨ can_merge g e.1 (e.2 + 1) k = true) →
              False := by
            intro e heL k hge hor
            have hde := hall e heL
            rw [deadCell, hge] at hde
            rcases hor with hcm | hcm <;> simp [hcm] at hde
          rcases hcase with ⟨h1, h2⟩ | ⟨h1, h2⟩ | ⟨h1, h2⟩ | ⟨h1, h2⟩
          · refine hmergeTrue c hcL n hgc (Or.inl ?_)
            rw [can_merge]
            have hvalid : valid_cell (c.1 + 1) c.2 = true := by
              simp only [valid_cell, decide_eq_true_eq]
              omega
            have hget : getCell g (c.1 + 1) c.2 = some m := by
              rw [← h1, ← h2]
              exact hgd
            rw [hvalid, hget]
            simp [hsv]
          · refine hmergeTrue d hdL m hgd (Or.inl ?_)
            rw [can_merge]
            have hvalid : valid_cell (d.1 + 1) d.2 = true := by
              simp only [valid_cell, decide_eq_true_eq]
              omega
            have hget : getCell g (d.1 + 1) d.2 = some n := by
              rw [← h1, ← h2]
              exact hgc
            rw [hvalid, hget]
            simp [hsv]
          · refine hmergeTrue c hcL n hgc (Or.inr ?_)
            rw [can_merge]
            have hvalid : valid_cell c.1 (c.2 + 1) = true := by
              simp only [valid_cell, decide_eq_true_eq]
              omega
            have hget : getCell g c.1 (c.2 + 1) = some m := by
              rw [← h2, ← h1]
              exact hgd
            rw [hvalid, hget]
            simp [hsv]
          · refine hmergeTrue d hdL m hgd (Or.inr ?_)
            rw [can_merge]
            have hvalid : valid_cell d.1 (d.2 + 1) = true := by
              simp only [valid_cell, decide_eq_true_eq]
              omega
            have hget : getCell g d.1 (d.2 + 1) = some n := by
              rw [← h2, ← h1]
              exact hgc
            rw [hvalid, hget]
            simp [hsv]
    · intro hno c hcL
      have hso := hfull c hcL
      rcases hgc : getCell g c.1 c.2 with _ | n
      · rw [hgc] at hso
        simp at hso
      · have h1 : can_merge g (c.1 + 1) c.2 n = false := by
          cases hcm : can_merge g (c.1 + 1) c.2 n
          · rfl
          · exfalso
            have := hasAdjEq_of_merge g c hcL n hgc (c.1 + 1) c.2 (by omega) hcm
            rw [hno] at this
            exact Bool.noConfusion this
        have h2 : can_merge g c.1 (c.2 + 1) n = false := by
          cases hcm : can_merge g c.1 (c.2 + 1) n
          · rfl
          · exfalso
            have := hasAdjEq_of_merge g c hcL n hgc c.1 (c.2 + 1) (by omega) hcm
            rw [hno] at this
            exact Bool.noConfusion this
        rw [deadCell, hgc]
        simp [h1, h2]

/-- Witness for C2 at a concrete full deadlocked board. -/
theorem C2_witness :
    full fullGrid = true ∧ (is_deadlocked fullGrid = true ↔ hasAdjEq fullGrid = false) :=
  ⟨by decide, (C2_deadlock_characterization fullGrid).2 (by decide)⟩

/-- Value is a power of two and at least `2`, as an executable search. -/
def pow2b (v : Nat) : Bool :=
  (List.range (v + 1)).any fun j => decide (1 ≤ j) && decide (2 ^ j = v)

/-- Cell content is empty or holds a power of two that is at least `2`. -/
def powOpt : Option Nat → Bool
  | none => true
  | some v => pow2b v

/-- Every tile value stored anywhere in the grid is a power of two `≥ 2`. -/
abbrev PowGrid (g : Grid) : Prop :=
  ∀ row ∈ g, ∀ o ∈ row, powOpt o = true

/-- Characterization of `pow2b`. -/
theorem pow2b_iff (v : Nat) : pow2b v = true ↔ ∃ j, 1 ≤ j ∧ v = 2 ^ j := by
  constructor
  · intro h
    unfold pow2b at h
    rw [List.any_eq_true] at h
    obtain ⟨j, _, hcond⟩ := h
    rw [Bool.and_eq_true, decide_eq_true_eq, decide_eq_true_eq] at hcond
    exact ⟨j, hcond.1, hcond.2.symm⟩
  · rintro ⟨j, hj, rfl⟩
    unfold pow2b
    rw [List.any_eq_true]
    refine ⟨j, List.mem_range.mpr ?_, by simp [hj]⟩
    have := Nat.lt_two_pow j
    omega

/-- Doubling preserves the power-of-two property. -/
theorem pow2b_double (v : Nat) (h : pow2b v = true) : pow2b (v * 2) = true := by
  rw [pow2b_iff] at h ⊢
  obtain ⟨j, hj, rfl⟩ := h
  exact ⟨j + 1, by omega, by ring⟩

/-- Cell reads of a power-of-two grid satisfy `powOpt`. -/
theorem powOpt_getCell (g : Grid) (hp : PowGrid g) (x y : Int) :
    powOpt (getCell g x y) = true := by
  unfold getCell
  by_cases hx : x.toNat < g.length
  · by_cases hy : y.toNat < (g.getD x.toNat []).length
    · exact hp _ (getD_mem g x.toNat [] hx) _ (getD_mem _ _ _ hy)
    · rw [getD_past_end _ _ _ (by omega)]
      rfl
  · rw [getD_past_end g _ _ (by omega)]
    rfl

/-- Cell writes of `powOpt` values preserve the power-of-two grid property. -/
theorem PowGrid_setCell (g : Grid) (x y : Int) (v : Option Nat)
    (hp : PowGrid g) (hv : powOpt v = true) : PowGrid (setCell g x y v) := by
  intro row hrow o ho
  unfold setCell at hrow
  rcases List.mem_or_eq_of_mem_set hrow with hrow | rfl
  · exact hp row hrow o ho
  · rcases List.mem_or_eq_of_mem_set ho with ho | rfl
    · by_cases hx : x.toNat < g.length
      · exact hp _ (getD_mem _ _ _ hx) o ho
      · rw [getD_past_end _ _ _ (by omega)] at ho
        exact absurd ho (List.not_mem_nil o)
    · exact hv

/-- One unfolding step of the sliding while loop. -/
theorem slide_succ (fuel : Nat) (g : Grid) (v : Nat) (x y dx dy : Int) :
    slide (fuel + 1) g v x y dx dy =
      if can_move g (x + dx) (y + dy) then
        slide fuel (setCell (setCell g x y none) (x + dx) (y + dy) (some v)) v
          (x + dx) (y + dy) dx dy
      else (g, x, y) := rfl

/-- Sliding a power-of-two tile preserves the power-of-two grid property. -/
theorem PowGrid_slide (v : Nat) (hpv : pow2b v = true) :
    ∀ (fuel : Nat) (g : Grid) (x y dx dy : Int), PowGrid g →
      PowGrid (slide fuel g v x y dx dy).1
  | 0, g, x, y, dx, dy, hp => hp
  | fuel + 1, g, x, y, dx, dy, hp => by
    rw [slide_succ]
    by_cases h : can_move g (x + dx) (y + dy) = true
    · rw [if_pos h]
      exact PowGrid_slide v hpv fuel _ _ _ _ _
        (PowGrid_setCell _ _ _ _ (PowGrid_setCell _ _ _ _ hp rfl) hpv)
    · rw [if_neg h]
      exact hp

/-- Scheduling the spawn animation does not touch the grid. -/
theorem sched_grid (s : MoveOut) : (sched s).grid = s.grid := by
  unfold sched
  split
  · rfl
  · rfl

/-- One loop body preserves the power-of-two grid property: sliding moves a
value unchanged, and a merge writes the double of a stored value — also on
the path where `update_colors` then raises, since the board writes precede
the raise. -/
theorem PowGrid_moveStep (dx dy : Int) (s : MoveOut) (c : Int × Int)
    (hp : PowGrid s.grid) : PowGrid (moveStep dx dy s c).grid := by
  unfold moveStep
  split
  · exact hp
  · rcases hv : getCell s.grid c.1 c.2 with _ | v
    · exact hp
    · have hpv : pow2b v = true := by
        have hh := powOpt_getCell s.grid hp c.1 c.2
        rw [hv] at hh
        exact hh
      have hps : PowGrid (slide 4 s.grid v c.1 c.2 dx dy).1 :=
        PowGrid_slide v hpv 4 s.grid c.1 c.2 dx dy hp
      simp only [hv]
      split
      · split
        · split
          · exact PowGrid_setCell _ _ _ _ (PowGrid_setCell _ _ _ _ hps rfl) (pow2b_double v hpv)
          · rw [sched_grid]
            exact PowGrid_setCell _ _ _ _ (PowGrid_setCell _ _ _ _ hps rfl) (pow2b_double v hpv)
        · exact PowGrid_setCell _ _ _ _ (PowGrid_setCell _ _ _ _ hps rfl) (pow2b_double v hpv)
      · split
        · exact hps
        · rw [sched_grid]
          exact hps

/-- Cell loop preserves the power-of-two grid property. -/
theorem PowGrid_foldl (dx dy : Int) :
    ∀ (l : List (Int × Int)) (s : MoveOut), PowGrid s.grid →
      PowGrid (l.foldl (moveStep dx dy) s).grid
  | [], s, hp => hp
  | c :: rest, s, hp => by
    rw [List.foldl_cons]
    exact PowGrid_foldl dx dy rest _ (PowGrid_moveStep dx dy s c hp)

/-- C8: every tile value on the board is a power of two and at least `2`
(`pow2b`, characterized by the first conjunct): the invariant is established
by `reset`, preserved by every successful spawn (which writes a `2`), and
preserved by every `move` call (sliding moves values unchanged, merging only
doubles a stored value). -/
theorem C8_tile_values_powers_of_two :
    (∀ v : Nat, pow2b v = true ↔ ∃ j, 1 ≤ j ∧ v = 2 ^ j) ∧
    (∀ k1 k2 : Nat, PowGrid (reset k1 k2)) ∧
    (∀ (g : Grid) (k : Nat) (g' : Grid) (m : Bool), PowGrid g →
      new_tile g k = Except.ok (g', m) → PowGrid g') ∧
    (∀ (g : Grid) (m : Bool) (dx dy : Int), PowGrid g → PowGrid (move g m dx dy).grid) := by
  have hspawn : ∀ (g : Grid) (k : Nat) (g' : Grid) (m : Bool), PowGrid g →
      new_tile g k = Except.ok (g', m) → PowGrid g' := by
    intro g k g' m hp hok
    rcases hne : empty_cells g with _ | ⟨c0, rest⟩
    · unfold new_tile at hok
      rw [hne] at hok
      exact Except.noConfusion hok
    · obtain ⟨c, _, heq⟩ := new_tile_ok g k (by rw [hne]; simp)
      rw [heq] at hok
      injection hok with hok'
      have hg' : setCell g c.1 c.2 (some 2) = g' := congrArg Prod.fst hok'
      rw [← hg']
      exact PowGrid_setCell _ _ _ _ hp (by decide)
  refine ⟨pow2b_iff, ?_, hspawn, ?_⟩
  · intro k1 k2
    have hpe : PowGrid emptyGrid := by decide
    rcases h1 : new_tile emptyGrid k1 with e | ⟨g1, m1⟩
    · simp only [reset, h1]
      exact hpe
    · have hp1 : PowGrid g1 := hspawn emptyGrid k1 g1 m1 hpe h1
      rcases h2 : new_tile g1 k2 with e | ⟨g2, m2⟩
      · simp only [reset, h1, h2]
        exact hp1
      · simp only [reset, h1, h2]
        exact hspawn g1 k2 g2 m2 hp1 h2
  · intro g m dx dy hp
    cases m
    · exact PowGrid_foldl dx dy _ ⟨g, false, false, [], false⟩ hp
    · exact hp

/-- Board after the first spawn of `reset 0 0`. -/
def g1ex : Grid :=
  [[some 2, none, none, none], [none, none, none, none],
   [none, none, none, none], [none, none, none, none]]

/-- Witness for C8 at concrete boards and draws. -/
theorem C8_witness :
    PowGrid (reset 0 0) ∧ PowGrid emptyGrid ∧
      new_tile emptyGrid 0 = Except.ok (g1ex, false) ∧ PowGrid g1ex ∧
      PowGrid (move fullGrid false (-1) 0).grid :=
  ⟨C8_tile_values_powers_of_two.2.1 0 0, by decide, by rfl,
    C8_tile_values_powers_of_two.2.2.1 emptyGrid 0 g1ex false (by decide) (by rfl),
    C8_tile_values_powers_of_two.2.2.2 fullGrid false (-1) 0 (by decide)⟩

/-- Value of a cell for the purpose of summation: empty cells count zero. -/
def toVal : Option Nat → Nat
  | none => 0
  | some v => v

/-- Sum of the tile values of one column list. -/
def rowSum (r : List (Option Nat)) : Nat :=
  (r.map toVal).sum

/-- Sum of all tile values on the board. -/
def sumGrid (g : Grid) : Nat :=
  (g.map rowSum).sum

/-- Setting an in-range entry changes a `Nat` list sum by the difference. -/
theorem sum_set_nat : ∀ (l : List Nat) (j : Nat) (a : Nat), j < l.length →
    (l.set j a).sum + l.getD j 0 = l.sum + a
  | [], j, a, h => absurd h (by simp)
  | x :: xs, 0, a, _ => by
    simp only [List.set, List.sum_cons, List.getD_cons_zero]
    omega
  | x :: xs, j + 1, a, h => by
    have ih := sum_set_nat xs j a (by simpa using h)
    simp only [List.set, List.sum_cons, List.getD_cons_succ]
    omega

/-- Mapping commutes with `set`. -/
theorem map_set' {α β : Type} (f : α → β) :
    ∀ (l : List α) (j : Nat) (a : α), (l.set j a).map f = (l.map f).set j (f a)
  | [], _, _ => rfl
  | x :: xs, 0, a => rfl
  | x :: xs, j + 1, a => by
    simp only [List.set, List.map_cons]
    rw [map_set' f xs j a]

/-- Mapping commutes with `getD`. -/
theorem getD_map' {α β : Type} (f : α → β) :
    ∀ (l : List α) (j : Nat) (d : α), (l.map f).getD j (f d) = f (l.getD j d)
  | [], _, _ => rfl
  | x :: xs, 0, d => rfl
  | x :: xs, j + 1, d => getD_map' f xs j d

/-- Setting an in-range cell of a row changes its sum by the difference. -/
theorem rowSum_set (r : List (Option Nat)) (j : Nat) (v : Option Nat) (h : j < r.length) :
    rowSum (r.set j v) + toVal (r.getD j none) = rowSum r + toVal v := by
  have e1 := sum_set_nat (r.map toVal) j (toVal v) (by simpa using h)
  rw [← map_set' toVal r j v] at e1
  have e2 : (r.map toVal).getD j 0 = toVal (r.getD j none) := getD_map' toVal r j none
  unfold rowSum
  omega

/-- Replacing an in-range row changes the grid sum by the difference. -/
theorem sumGrid_set_row (g : Grid) (i : Nat) (r : List (Option Nat)) (h : i < g.length) :
    sumGrid (g.set i r) + rowSum (g.getD i []) = sumGrid g + rowSum r := by
  have e1 := sum_set_nat (g.map rowSum) i (rowSum r) (by simpa using h)
  rw [← map_set' rowSum g i r] at e1
  have e2 : (g.map rowSum).getD i 0 = rowSum (g.getD i []) := getD_map' rowSum g i []
  unfold sumGrid
  omega

/-- Writing a valid cell of a well-formed grid changes the board sum by the
difference between the new and the old cell value. -/
theorem sumGrid_setCell (g : Grid) (x y : Int) (v : Option Nat)
    (hw : WF g) (hv : valid_cell x y = true) :
    sumGrid (setCell g x y v) + toVal (getCell g x y) = sumGrid g + toVal v := by
  obtain ⟨h4, hrows⟩ := hw
  simp only [valid_cell, decide_eq_true_eq] at hv
  have hx : x.toNat < g.length := by omega
  have hrow : (g.getD x.toNat []).length = 4 := hrows _ (getD_mem _ _ _ hx)
  have hy : y.toNat < (g.getD x.toNat []).length := by omega
  have e1 := sumGrid_set_row g x.toNat ((g.getD x.toNat []).set y.toNat v) hx
  have e2 := rowSum_set (g.getD x.toNat []) y.toNat v hy
  show sumGrid (g.set x.toNat ((g.getD x.toNat []).set y.toNat v)) +
    toVal ((g.getD x.toNat []).getD y.toNat none) = sumGrid g + toVal v
  omega

/-- Sliding a tile preserves well-formedness, keeps the carried value at the
final cell, stays inside the board, and preserves the board sum. -/
theorem slide_sum (dx dy : Int) (hd : ¬(dx = 0 ∧ dy = 0)) (v : Nat) :
    ∀ (fuel : Nat) (g : Grid) (x y : Int), WF g → valid_cell x y = true →
      getCell g x y = some v →
      WF (slide fuel g v x y dx dy).1 ∧
      valid_cell (slide fuel g v x y dx dy).2.1 (slide fuel g v x y dx dy).2.2 = true ∧
      getCell (slide fuel g v x y dx dy).1 (slide fuel g v x y dx dy).2.1
        (slide fuel g v x y dx dy).2.2 = some v ∧
      sumGrid (slide fuel g v x y dx dy).1 = sumGrid g
  | 0, g, x, y, hw, hvalid, hg => ⟨hw, hvalid, hg, rfl⟩
  | fuel + 1, g, x, y, hw, hvalid, hg => by
    rw [slide_succ]
    by_cases h : can_move g (x + dx) (y + dy) = true
    · rw [if_pos h]
      unfold can_move at h
      rw [Bool.and_eq_true] at h
      obtain ⟨hvalid2, hnone⟩ := h
      rw [Option.isNone_iff_eq_none] at hnone
      have hne : x.toNat ≠ (x + dx).toNat ∨ y.toNat ≠ (y + dy).toNat := by
        simp only [valid_cell, decide_eq_true_eq] at hvalid hvalid2
        omega
      have hw1 : WF (setCell g x y none) := WF_setCell _ _ _ _ hw
      have hw2 : WF (setCell (setCell g x y none) (x + dx) (y + dy) (some v)) :=
        WF_setCell _ _ _ _ hw1
      have hget2 : getCell (setCell (setCell g x y none) (x + dx) (y + dy) (some v))
          (x + dx) (y + dy) = some v := getCell_setCell_self _ _ _ _ hw1 hvalid2
      have e1 := sumGrid_setCell g x y none hw hvalid
      have e2 := sumGrid_setCell (setCell g x y none) (x + dx) (y + dy) (some v) hw1 hvalid2
      have hmid : getCell (setCell g x y none) (x + dx) (y + dy) = none := by
        rw [getCell_setCell_ne _ _ _ _ _ _ hne]
        exact hnone
      rw [hg] at e1
      rw [hmid] at e2
      obtain ⟨hwR, hvR, hgR, hsR⟩ :=
        slide_sum dx dy hd v fuel _ (x + dx) (y + dy) hw2 hvalid2 hget2
      refine ⟨hwR, hvR, hgR, ?_⟩
      rw [hsR]
      have t1 : toVal (some v) = v := rfl
      have t2 : toVal none = 0 := rfl
      rw [t1, t2] at e1 e2
      omega
    · rw [if_neg h]
      exact ⟨hw, hvalid, hg, rfl⟩

/-- Either branch of the animation dispatch leaves the grid of the threaded
state unchanged. -/
theorem ite_sched_grid (P : Prop) [Decidable P] (s1 : MoveOut) :
    (if P then s1 else sched s1).grid = s1.grid := by
  split
  · rfl
  · rw [sched_grid]

/-- One loop body preserves the board sum for a direction that is not the zero
vector: sliding moves a value, and a merge consumes two equal values `v` and
writes `2 v` at the destination. -/
theorem moveStep_sum (dx dy : Int) (hd : ¬(dx = 0 ∧ dy = 0)) (s : MoveOut) (c : Int × Int)
    (hw : WF s.grid) (hvc : valid_cell c.1 c.2 = true) :
    WF (moveStep dx dy s c).grid ∧ sumGrid (moveStep dx dy s c).grid = sumGrid s.grid := by
  unfold moveStep
  split
  · exact ⟨hw, rfl⟩
  · rcases hv : getCell s.grid c.1 c.2 with _ | v
    · exact ⟨hw, rfl⟩
    · obtain ⟨hwS, hvS, hgS, hsS⟩ := slide_sum dx dy hd v 4 s.grid c.1 c.2 hw hvc hv
      simp only [hv]
      generalize hres : slide 4 s.grid v c.1 c.2 dx dy = r
      rw [hres] at hwS hvS hgS hsS
      by_cases hm : can_merge r.1 (r.2.1 + dx) (r.2.2 + dy) v = true
      · have hm' := hm
        unfold can_merge at hm
        rw [Bool.and_eq_true] at hm
        obtain ⟨hval2, hrest⟩ := hm
        rcases hgt : getCell r.1 (r.2.1 + dx) (r.2.2 + dy) with _ | m
        · rw [hgt] at hrest
          simp at hrest
        · rw [hgt] at hrest
          rw [decide_eq_true_eq] at hrest
          have hneq : r.2.1.toNat ≠ (r.2.1 + dx).toNat ∨ r.2.2.toNat ≠ (r.2.2 + dy).toNat := by
            simp only [valid_cell, decide_eq_true_eq] at hvS hval2
            omega
          have hw1 : WF (setCell r.1 r.2.1 r.2.2 none) := WF_setCell _ _ _ _ hwS
          have e1 := sumGrid_setCell r.1 r.2.1 r.2.2 none hwS hvS
          have e2 := sumGrid_setCell (setCell r.1 r.2.1 r.2.2 none) (r.2.1 + dx) (r.2.2 + dy)
            (some (v * 2)) hw1 hval2
          have hmid : getCell (setCell r.1 r.2.1 r.2.2 none) (r.2.1 + dx) (r.2.2 + dy) =
              some m := by
            rw [getCell_setCell_ne _ _ _ _ _ _ hneq]
            exact hgt
          rw [hgS] at e1
          rw [hmid] at e2
          have hWF3 : WF (setCell (setCell r.1 r.2.1 r.2.2 none) (r.2.1 + dx) (r.2.2 + dy)
              (some (v * 2))) := WF_setCell _ _ _ _ hw1
          have hsum : sumGrid (setCell (setCell r.1 r.2.1 r.2.2 none) (r.2.1 + dx) (r.2.2 + dy)
              (some (v * 2))) = sumGrid s.grid := by
            have t1 : toVal (some v) = v := rfl
            have t2 : toVal none = 0 := rfl
            have t3 : toVal (some m) = m := rfl
            have t4 : toVal (some (v * 2)) = v * 2 := rfl
            rw [t1, t2] at e1
            rw [t3, t4] at e2
            omega
          rw [if_pos hm']
          by_cases hk : v * 2 ∈ tileColorKeys
          · rw [if_pos hk]
            refine ⟨?_, ?_⟩ <;> rw [ite_sched_grid]
            · exact hWF3
            · exact hsum
          · rw [if_neg hk]
            exact ⟨hWF3, hsum⟩
      · rw [if_neg hm]
        refine ⟨?_, ?_⟩ <;> rw [ite_sched_grid]
        · exact hwS
        · show sumGrid r.1 = sumGrid s.grid
          exact hsS

/-- Cell loop over valid cells preserves the board sum. -/
theorem foldl_sum (dx dy : Int) (hd : ¬(dx = 0 ∧ dy = 0)) :
    ∀ (l : List (Int × Int)), (∀ c ∈ l, valid_cell c.1 c.2 = true) →
      ∀ s : MoveOut, WF s.grid →
      WF (l.foldl (moveStep dx dy) s).grid ∧
        sumGrid (l.foldl (moveStep dx dy) s).grid = sumGrid s.grid
  | [], _, s, hw => ⟨hw, rfl⟩
  | c :: rest, hmem, s, hw => by
    rw [List.foldl_cons]
    obtain ⟨hw1, hs1⟩ := moveStep_sum dx dy hd s c hw (hmem c (List.mem_cons_self ..))
    obtain ⟨hw2, hs2⟩ := foldl_sum dx dy hd rest
      (fun d hd' => hmem d (List.mem_cons_of_mem c hd')) (moveStep dx dy s c) hw1
    exact ⟨hw2, by rw [hs2, hs1]⟩

/-- C9: a `move` call along a unit direction preserves the sum of all tile
values on a well-formed board: slides move values unchanged and each merge
replaces two tiles of value `v` by one tile of value `2 v`. -/
theorem C9_move_preserves_sum (g : Grid) (m : Bool) (dx dy : Int)
    (hw : WF g) (hu : UnitDir dx dy) :
    sumGrid (move g m dx dy).grid = sumGrid g := by
  cases m
  · have hd : ¬(dx = 0 ∧ dy = 0) := by
      simp only [UnitDir, Prod.mk.injEq] at hu
      omega
    exact (foldl_sum dx dy hd (all_cells (decide (0 < dx)) (decide (0 < dy)))
      (fun c hc => valid_of_mem_all_cells hc) ⟨g, false, false, [], false⟩ hw).2
  · rfl

/-- Witness for C9 at a concrete board and direction. -/
theorem C9_witness :
    WF packedRow ∧ UnitDir (-1) 0 ∧
      sumGrid (move packedRow false (-1) 0).grid = sumGrid packedRow :=
  ⟨by decide, Or.inr (Or.inr (Or.inr rfl)),
    C9_move_preserves_sum packedRow false (-1) 0 (by decide) (Or.inr (Or.inr (Or.inr rfl)))⟩

/-- Witness for the amended C10 at a concrete board whose doubled values stay
inside the color table. -/
theorem C10_witness :
    WF packedRow ∧
      (∀ c ∈ all_cells false false, doubleInTable (getCell packedRow c.1 c.2) = true) ∧
      ((move packedRow false 0 0).moving = false ∧ (move packedRow false 0 0).spawned = false ∧
        (move packedRow false 0 0).crashed = false ∧
        (∀ c ∈ all_cells false false,
          getCell (move packedRow false 0 0).grid c.1 c.2 =
            (getCell packedRow c.1 c.2).map (fun v => v * 2)) ∧
        ∀ c ∈ all_cells false false,
          ((move packedRow false 0 0).grid |> fun G => (getCell G c.1 c.2).isSome) =
            (getCell packedRow c.1 c.2).isSome) :=
  ⟨by decide, by decide, C10_zero_vector_self_merges packedRow (by decide) (by decide)⟩

/-- Row of three equal tiles at indices `0`, `1`, `2`, rest of board empty. -/
def threeRow (v : Nat) : Grid :=
  [[some v, none, none, none], [some v, none, none, none],
   [some v, none, none, none], [none, none, none, none]]

/-- C1 amended: a tile doubled by a merge is never probed again as a mover
(the traversal proceeds away from the movement direction), and three
consecutive equal tiles collapse only pairwise, because the doubled value
`2 v` differs from the original `v`: for every `v` whose doubled value is a
`tile_colors` key, the row `[v, v, v]` moved toward index `0` becomes
`[2 v, v]` with exactly one merge.  A doubled tile can, however, be merged
again within the same call by a later-visited tile that holds the doubled
value (see the counterexample `[2, 2, 4]`); and at `v = 2048` the doubling
to `4096` leaves the color table, so `update_colors` raises `KeyError` and
the call aborts after the single merge with board `[4096, _, 2048]`, the
in-flight flag unset and no spawn scheduled (second conjunct). -/
theorem C1_three_equal_tiles_merge_pairwise :
    (∀ v : Nat, v * 2 ∈ tileColorKeys →
      move (threeRow v) false (-1) 0 =
        ⟨[[some (v * 2), none, none, none], [some v, none, none, none],
          [none, none, none, none], [none, none, none, none]], true, true,
         [((0, 0), v * 2)], false⟩) ∧
    move (threeRow 2048) false (-1) 0 =
      ⟨[[some 4096, none, none, none], [none, none, none, none],
        [some 2048, none, none, none], [none, none, none, none]], false, false,
       [((0, 0), 4096)], true⟩ := by
  constructor
  · intro v hkey
    have h2 : ¬(v * 2 = v) := by
      simp only [tileColorKeys, List.mem_cons, List.not_mem_nil, or_false] at hkey
      omega
    show (all_cells false false).foldl (moveStep (-1) 0) ⟨threeRow v, false, false, [], false⟩ = _
    simp only [show all_cells false false =
      [((0 : Int), (0 : Int)), (0, 1), (0, 2), (0, 3), (1, 0), (1, 1), (1, 2), (1, 3),
       (2, 0), (2, 1), (2, 2), (2, 3), (3, 0), (3, 1), (3, 2), (3, 3)] from rfl]
    simp [moveStep, threeRow, getCell, setCell, can_move, can_merge, valid_cell, sched,
      slide, List.getD, h2, hkey]
  · decide

/-- Witness for the amended C1 at `v = 2`. -/
theorem C1_witness :
    2 * 2 ∈ tileColorKeys ∧
      move (threeRow 2) false (-1) 0 =
        ⟨[[some 4, none, none, none], [some 2, none, none, none],
          [none, none, none, none], [none, none, none, none]], true, true,
         [((0, 0), 4)], false⟩ := by
  refine ⟨by decide, ?_⟩
  have hres := C1_three_equal_tiles_merge_pairwise.1 2 (by decide)
  exact hres

end Game2048

